import Mathlib

/-!
Verification of the elm-mirror-server repository utilities.

This file gives a shallow embedding of the decision logic of the
repository and proves the specified properties about it:

* `SplitMirror` embeds `split_mirror.py`: the first-fit-decreasing bin
  packing of package directories into size-bounded release bundles
  (`create_chunks`).
* `BackfillDocs` embeds `backfill_docs.py`: selection of package versions
  needing a docs backfill, the fetch loop with per-package failure
  isolation, the rate-limit delay schedule, the filesystem footprint of a
  run, and the (non-atomic) direct write of the docs artifact.
* `MirrorServer` models the read path of the mirror server from the
  specification (the server module itself is not among the sources), in
  particular the 503-for-unmirrored availability rule and the
  `endpoint.json` response shape.

Machine integers do not overflow in any of the embedded code paths
(Python integers are unbounded), so sizes and counts are `Nat`; the
rate-limit delay, a Python float division of exact integers, is modelled
as an exact rational number.
-/

namespace SplitMirror

/-- A package entry as produced by `get_packages_with_sizes`
(`split_mirror.py` lines 37-63): the relative path `author/name`
together with its total size in bytes. -/
abbrev Package := String × Nat

/-- A chunk under construction.  The source keeps the member names in
`chunks` and the running totals in the parallel list `chunk_sizes`
(lines 75-76); the embedding keeps each member together with its size so
that chunk totals are definable, and projects names away at the end. -/
abbrev Chunk := List Package

/-- `sorted(packages, key=lambda x: x[1], reverse=True)`
(`split_mirror.py` line 73): stable sort, descending by size. -/
def sortPackagesDesc (packages : List Package) : List Package :=
  List.insertionSort (fun a b => b.2 ≤ a.2) packages

/-- The first-fit scan of `create_chunks` (lines 87-94): walk the
existing chunks in order and add the package to the first chunk whose
running size plus the package size stays within `maxSize`; `none` when
the package fits nowhere. -/
def tryPlace (pkg : Package) (maxSize : Nat) :
    List (Chunk × Nat) → Option (List (Chunk × Nat))
  | [] => none
  | (c, sz) :: rest =>
    if sz + pkg.2 ≤ maxSize then some ((c ++ [pkg], sz + pkg.2) :: rest)
    else (tryPlace pkg maxSize rest).map (fun r => (c, sz) :: r)

/-- The body of the loop of `create_chunks` (lines 78-99): a package
larger than `maxSize` goes into a fresh chunk of its own (lines 80-85);
otherwise first-fit (lines 87-94), with a fresh chunk when nothing fits
(lines 96-99). -/
def placePackage (maxSize : Nat) (st : List (Chunk × Nat)) (pkg : Package) :
    List (Chunk × Nat) :=
  if maxSize < pkg.2 then st ++ [([pkg], pkg.2)]
  else
    match tryPlace pkg maxSize st with
    | some st2 => st2
    | none => st ++ [([pkg], pkg.2)]

/-- The chunk/size state after the whole loop of `create_chunks` has
processed the size-sorted package list. -/
def chunkStates (packages : List Package) (maxSize : Nat) : List (Chunk × Nat) :=
  (sortPackagesDesc packages).foldl (placePackage maxSize) []

/-- The chunks produced by `create_chunks`, with each member still
carrying its size (before the final in-chunk alphabetical sort, which
only reorders names). -/
def create_chunks_sized (packages : List Package) (maxSize : Nat) : List Chunk :=
  (chunkStates packages maxSize).map Prod.fst

/-- `create_chunks` (`split_mirror.py` lines 66-105): the returned value,
a list of chunks of package paths, each chunk sorted alphabetically
(lines 101-103). -/
def create_chunks (packages : List Package) (maxSize : Nat) : List (List String) :=
  (create_chunks_sized packages maxSize).map
    (fun c => List.insertionSort (fun a b => a ≤ b) (c.map Prod.fst))

/-- Invariant carried by every chunk/size pair of the loop state when all
packages fit individually: the recorded running size is the sum of the
member sizes and stays within the bound. -/
def SizedOk (maxSize : Nat) (x : Chunk × Nat) : Prop :=
  x.2 = (x.1.map Prod.snd).sum ∧ x.2 ≤ maxSize

lemma tryPlace_ok {pkg : Package} {maxSize : Nat} :
    ∀ {st st2 : List (Chunk × Nat)}, tryPlace pkg maxSize st = some st2 →
      (∀ x ∈ st, SizedOk maxSize x) → ∀ x ∈ st2, SizedOk maxSize x := by
  intro st
  induction st with
  | nil => intro st2 h; simp [tryPlace] at h
  | cons hd tl ih =>
    intro st2 h hok
    obtain ⟨c, sz⟩ := hd
    by_cases hle : sz + pkg.2 ≤ maxSize
    · rw [tryPlace, if_pos hle] at h
      obtain rfl := Option.some.inj h
      intro x hx
      rcases List.mem_cons.1 hx with rfl | hx
      · have hhd := hok (c, sz) (List.mem_cons_self _ _)
        refine ⟨?_, hle⟩
        simp only [List.map_append, List.sum_append]
        simpa using congrArg (fun t => t + pkg.2) hhd.1
      · exact hok x (List.mem_cons_of_mem _ hx)
    · rw [tryPlace, if_neg hle] at h
      rcases Option.map_eq_some'.1 h with ⟨r, hr, rfl⟩
      intro x hx
      rcases List.mem_cons.1 hx with rfl | hx
      · exact hok (c, sz) (List.mem_cons_self _ _)
      · exact ih hr (fun y hy => hok y (List.mem_cons_of_mem _ hy)) x hx

lemma tryPlace_flatten {pkg : Package} {maxSize : Nat} :
    ∀ {st st2 : List (Chunk × Nat)}, tryPlace pkg maxSize st = some st2 →
      ((st2.map Prod.fst).flatten).Perm (pkg :: (st.map Prod.fst).flatten) := by
  intro st
  induction st with
  | nil => intro st2 h; simp [tryPlace] at h
  | cons hd tl ih =>
    intro st2 h
    obtain ⟨c, sz⟩ := hd
    by_cases hle : sz + pkg.2 ≤ maxSize
    · rw [tryPlace, if_pos hle] at h
      obtain rfl := Option.some.inj h
      simp only [List.map_cons, List.flatten_cons, List.append_assoc,
        List.singleton_append]
      exact List.perm_middle
    · rw [tryPlace, if_neg hle] at h
      rcases Option.map_eq_some'.1 h with ⟨r, hr, rfl⟩
      simp only [List.map_cons, List.flatten_cons]
      exact (List.Perm.append_left c (ih hr)).trans List.perm_middle

lemma tryPlace_mem_big {pkg : Package} {maxSize : Nat} {x : Chunk × Nat} :
    ∀ {st st2 : List (Chunk × Nat)}, tryPlace pkg maxSize st = some st2 →
      x ∈ st → maxSize < x.2 → x ∈ st2 := by
  intro st
  induction st with
  | nil => intro st2 h; simp [tryPlace] at h
  | cons hd tl ih =>
    intro st2 h hx hbig
    obtain ⟨c, sz⟩ := hd
    by_cases hle : sz + pkg.2 ≤ maxSize
    · rw [tryPlace, if_pos hle] at h
      obtain rfl := Option.some.inj h
      rcases List.mem_cons.1 hx with rfl | hx
      · exfalso
        have : sz ≤ maxSize := le_trans (Nat.le_add_right _ _) hle
        exact absurd hbig (not_lt.2 this)
      · exact List.mem_cons_of_mem _ hx
    · rw [tryPlace, if_neg hle] at h
      rcases Option.map_eq_some'.1 h with ⟨r, hr, rfl⟩
      rcases List.mem_cons.1 hx with rfl | hx
      · exact List.mem_cons_self _ _
      · exact List.mem_cons_of_mem _ (ih hr hx hbig)

lemma placePackage_ok {maxSize : Nat} {st : List (Chunk × Nat)} {pkg : Package}
    (hpkg : pkg.2 ≤ maxSize) (hok : ∀ x ∈ st, SizedOk maxSize x) :
    ∀ x ∈ placePackage maxSize st pkg, SizedOk maxSize x := by
  unfold placePackage
  rw [if_neg (not_lt.2 hpkg)]
  cases hplace : tryPlace pkg maxSize st with
  | some st2 => exact tryPlace_ok hplace hok
  | none =>
    intro x hx
    rcases List.mem_append.1 hx with hx | hx
    · exact hok x hx
    · rcases List.mem_singleton.1 hx with rfl
      exact ⟨by simp, hpkg⟩

lemma placePackage_flatten {maxSize : Nat} (st : List (Chunk × Nat)) (pkg : Package) :
    (((placePackage maxSize st pkg).map Prod.fst).flatten).Perm
      (pkg :: (st.map Prod.fst).flatten) := by
  unfold placePackage
  by_cases hbig : maxSize < pkg.2
  · rw [if_pos hbig]
    simp only [List.map_append, List.flatten_append, List.map_cons, List.map_nil,
      List.flatten_cons, List.flatten_nil, List.append_nil, List.singleton_append]
    exact List.perm_append_singleton pkg _
  · rw [if_neg hbig]
    cases hplace : tryPlace pkg maxSize st with
    | some st2 => exact tryPlace_flatten hplace
    | none =>
      simp only [List.map_append, List.flatten_append, List.map_cons, List.map_nil,
        List.flatten_cons, List.flatten_nil, List.append_nil, List.singleton_append]
      exact List.perm_append_singleton pkg _

lemma placePackage_mem_big {maxSize : Nat} {st : List (Chunk × Nat)} {pkg : Package}
    {x : Chunk × Nat} (hx : x ∈ st) (hbig : maxSize < x.2) :
    x ∈ placePackage maxSize st pkg := by
  unfold placePackage
  by_cases hb : maxSize < pkg.2
  · rw [if_pos hb]; exact List.mem_append_left _ hx
  · rw [if_neg hb]
    cases hplace : tryPlace pkg maxSize st with
    | some st2 => exact tryPlace_mem_big hplace hx hbig
    | none => exact List.mem_append_left _ hx

lemma placePackage_self_big {maxSize : Nat} (st : List (Chunk × Nat)) {pkg : Package}
    (hbig : maxSize < pkg.2) :
    ([pkg], pkg.2) ∈ placePackage maxSize st pkg := by
  unfold placePackage
  rw [if_pos hbig]
  exact List.mem_append_right _ (List.mem_singleton.2 rfl)

lemma foldl_ok {maxSize : Nat} :
    ∀ (l : List Package) (st : List (Chunk × Nat)),
      (∀ p ∈ l, p.2 ≤ maxSize) → (∀ x ∈ st, SizedOk maxSize x) →
      ∀ x ∈ l.foldl (placePackage maxSize) st, SizedOk maxSize x := by
  intro l
  induction l with
  | nil => intro st _ hok; simpa using hok
  | cons p l ih =>
    intro st hl hok
    simp only [List.foldl_cons]
    exact ih _ (fun q hq => hl q (List.mem_cons_of_mem _ hq))
      (placePackage_ok (hl p (List.mem_cons_self _ _)) hok)

lemma foldl_flatten {maxSize : Nat} :
    ∀ (l : List Package) (st : List (Chunk × Nat)),
      (((l.foldl (placePackage maxSize) st).map Prod.fst).flatten).Perm
        ((st.map Prod.fst).flatten ++ l) := by
  intro l
  induction l with
  | nil => intro st; simp
  | cons p l ih =>
    intro st
    simp only [List.foldl_cons]
    have h1 := ih (placePackage maxSize st p)
    have h2 : ((((placePackage maxSize st p).map Prod.fst).flatten) ++ l).Perm
        ((st.map Prod.fst).flatten ++ p :: l) := by
      refine ((placePackage_flatten st p).append_right l).trans ?_
      exact (List.perm_middle).symm
    exact h1.trans h2

lemma foldl_mem_big {maxSize : Nat} {x : Chunk × Nat} (hbig : maxSize < x.2) :
    ∀ (l : List Package) (st : List (Chunk × Nat)), x ∈ st →
      x ∈ l.foldl (placePackage maxSize) st := by
  intro l
  induction l with
  | nil => intro st hx; simpa using hx
  | cons p l ih =>
    intro st hx
    simp only [List.foldl_cons]
    exact ih _ (placePackage_mem_big hx hbig)

lemma foldl_placed_big {maxSize : Nat} {p : Package} (hbig : maxSize < p.2) :
    ∀ (l : List Package) (st : List (Chunk × Nat)), p ∈ l →
      ([p], p.2) ∈ l.foldl (placePackage maxSize) st := by
  intro l
  induction l with
  | nil => intro st hx; simp at hx
  | cons q l ih =>
    intro st hq
    simp only [List.foldl_cons]
    rcases List.mem_cons.1 hq with rfl | hq
    · exact foldl_mem_big hbig l _ (placePackage_self_big st hbig)
    · exact ih _ hq

lemma sortPackagesDesc_perm (packages : List Package) :
    (sortPackagesDesc packages).Perm packages :=
  List.perm_insertionSort _ packages

lemma chunks_sized_flatten_perm (packages : List Package) (maxSize : Nat) :
    ((create_chunks_sized packages maxSize).flatten).Perm packages := by
  have h1 := @foldl_flatten maxSize (sortPackagesDesc packages) []
  simp only [List.map_nil, List.flatten_nil, List.nil_append] at h1
  unfold create_chunks_sized chunkStates
  exact h1.trans (sortPackagesDesc_perm packages)

lemma sortNames_flatten_perm :
    ∀ L : List Chunk,
      ((L.map fun c =>
          List.insertionSort (fun a b : String => a ≤ b) (c.map Prod.fst)).flatten).Perm
        ((L.map fun c => c.map Prod.fst).flatten) := by
  intro L
  induction L with
  | nil => simp
  | cons c L ih =>
    simp only [List.map_cons, List.flatten_cons]
    exact List.Perm.append (List.perm_insertionSort _ _) ih

lemma create_chunks_flatten_perm (packages : List Package) (maxSize : Nat) :
    ((create_chunks packages maxSize).flatten).Perm (packages.map Prod.fst) := by
  unfold create_chunks
  have h1 := sortNames_flatten_perm (create_chunks_sized packages maxSize)
  have h2 : ((create_chunks_sized packages maxSize).map fun c => c.map Prod.fst).flatten
      = ((create_chunks_sized packages maxSize).flatten).map Prod.fst :=
    (List.map_flatten _ _).symm
  rw [h2] at h1
  exact h1.trans ((chunks_sized_flatten_perm packages maxSize).map Prod.fst)

lemma sum_counts_eq_one {pname : String} :
    ∀ L : List (List String), ((L.map (List.count pname)).sum = 1) →
      L.countP (fun c => decide (pname ∈ c)) = 1 ∧
      ∀ c ∈ L, pname ∈ c → List.count pname c = 1 := by
  intro L
  induction L with
  | nil => intro h; simp at h
  | cons c L ih =>
    intro h
    simp only [List.map_cons, List.sum_cons] at h
    by_cases hc : List.count pname c = 0
    · obtain ⟨h1, h2⟩ := ih (by omega)
      have hnotmem : pname ∉ c := List.count_eq_zero.1 hc
      constructor
      · rw [List.countP_cons]
        simp [hnotmem, h1]
      · intro d hd hmem
        rcases List.mem_cons.1 hd with rfl | hd
        · exact absurd hmem hnotmem
        · exact h2 d hd hmem
    · have hpos : 0 < List.count pname c := Nat.pos_of_ne_zero hc
      have hc1 : List.count pname c = 1 := by omega
      have hsum0 : (L.map (List.count pname)).sum = 0 := by omega
      have hall := List.sum_eq_zero_iff.1 hsum0
      have hmemc : pname ∈ c := List.count_pos_iff.1 hpos
      have hnot : ∀ d ∈ L, pname ∉ d := by
        intro d hd hmem
        have h0 : List.count pname d = 0 := hall _ (List.mem_map_of_mem _ hd)
        exact absurd hmem (List.count_eq_zero.1 h0)
      constructor
      · rw [List.countP_cons]
        have hL0 : L.countP (fun c2 => decide (pname ∈ c2)) = 0 :=
          List.countP_eq_zero.2 (by intro d hd; simpa using hnot d hd)
        simp [hL0, hmemc]
      · intro d hd hmem
        rcases List.mem_cons.1 hd with rfl | hd
        · exact hc1
        · exact absurd hmem (hnot d hd)

/-- Claim C1, counterexample: as stated — every chunk produced by
`create_chunks` has total size at most the configured maximum, for every
input — the claim is false: a single package of size 5 with maximum 3 is
placed (by the warning branch, `split_mirror.py` lines 80-85) in a chunk
of total size 5, exceeding the maximum. -/
theorem claim_C1_counterexample :
    ¬ (∀ c ∈ create_chunks_sized [("author/big", 5)] 3,
        (c.map Prod.snd).sum ≤ 3) := by decide

/-- Claim C1, amended: whenever every package of the input individually
fits in the configured maximum, every chunk produced by `create_chunks`
has total size at most that maximum. -/
theorem claim_C1_no_chunk_exceeds_max (packages : List Package) (maxSize : Nat)
    (h : ∀ p ∈ packages, p.2 ≤ maxSize) :
    ∀ c ∈ create_chunks_sized packages maxSize, (c.map Prod.snd).sum ≤ maxSize := by
  intro c hc
  unfold create_chunks_sized at hc
  rcases List.mem_map.1 hc with ⟨x, hx, rfl⟩
  have hsorted : ∀ p ∈ sortPackagesDesc packages, p.2 ≤ maxSize := fun p hp =>
    h p ((sortPackagesDesc_perm packages).mem_iff.1 hp)
  unfold chunkStates at hx
  have hok := foldl_ok (sortPackagesDesc packages) [] hsorted (by simp) x hx
  exact hok.1 ▸ hok.2

/-- Witness for claim C1 at a concrete input: both packages fit the
bound 3, and indeed no produced chunk exceeds 3. -/
theorem claim_C1_witness :
    (∀ p ∈ [(("a/x" : String), 2), (("b/y" : String), 3)], p.2 ≤ 3) ∧
    ∀ c ∈ create_chunks_sized [(("a/x" : String), 2), (("b/y" : String), 3)] 3,
      (c.map Prod.snd).sum ≤ 3 :=
  ⟨by decide, claim_C1_no_chunk_exceeds_max _ 3 (by decide)⟩

/-- Claim C3: the chunks produced by `create_chunks` contain, between
them, exactly the input packages (no duplication, nothing dropped — so
no package directory is split across bundles), and when the input names
are distinct every package name lies in exactly one chunk, exactly
once. -/
theorem claim_C3_each_package_in_exactly_one_chunk
    (packages : List Package) (maxSize : Nat) :
    ((create_chunks packages maxSize).flatten).Perm (packages.map Prod.fst) ∧
    ((packages.map Prod.fst).Nodup →
      ∀ pname ∈ packages.map Prod.fst,
        (create_chunks packages maxSize).countP (fun c => decide (pname ∈ c)) = 1 ∧
        ∀ c ∈ create_chunks packages maxSize, pname ∈ c →
          List.count pname c = 1) := by
  refine ⟨create_chunks_flatten_perm packages maxSize, ?_⟩
  intro hnodup pname hmem
  have hcount : List.count pname ((create_chunks packages maxSize).flatten) = 1 := by
    rw [(create_chunks_flatten_perm packages maxSize).count_eq]
    exact List.count_eq_one_of_mem hnodup hmem
  rw [List.count_flatten] at hcount
  exact sum_counts_eq_one _ hcount

/-- Witness for claim C3 at a concrete input (two oversized packages,
hence two singleton chunks). -/
theorem claim_C3_witness :
    ((create_chunks [(("b/x" : String), 5), (("a/y" : String), 7)] 1).flatten).Perm
      ["b/x", "a/y"] ∧
    (create_chunks [(("b/x" : String), 5), (("a/y" : String), 7)] 1).countP
      (fun c => decide (("b/x" : String) ∈ c)) = 1 := by
  have h := claim_C3_each_package_in_exactly_one_chunk
      [(("b/x" : String), 5), (("a/y" : String), 7)] 1
  exact ⟨h.1, (h.2 (by decide) "b/x" (by decide)).1⟩

/-- Claim C4: on package sizes [1.2GB, 0.9GB, 0.5GB, 0.3GB] (decimal
bytes) with a 1.9GB cap, the produced packing has no chunk over the cap,
and in particular the chunk holding the 1.2GB package stays within the
cap. -/
theorem claim_C4_concrete_packing :
    (∀ c ∈ create_chunks_sized
        [("pkg/a", 1200000000), ("pkg/b", 900000000),
         ("pkg/c", 500000000), ("pkg/d", 300000000)] 1900000000,
      (c.map Prod.snd).sum ≤ 1900000000) ∧
    (∀ c ∈ create_chunks_sized
        [("pkg/a", 1200000000), ("pkg/b", 900000000),
         ("pkg/c", 500000000), ("pkg/d", 300000000)] 1900000000,
      (("pkg/a" : String), 1200000000) ∈ c → (c.map Prod.snd).sum ≤ 1900000000) := by
  decide

/-- Claim C10: a package strictly larger than the configured maximum is
placed in a chunk of its own, containing it and nothing else. -/
theorem claim_C10_oversized_package_in_own_chunk
    (packages : List Package) (maxSize : Nat) (p : Package)
    (hmem : p ∈ packages) (hbig : maxSize < p.2) :
    [p] ∈ create_chunks_sized packages maxSize ∧
    [p.1] ∈ create_chunks packages maxSize := by
  have hmem2 : p ∈ sortPackagesDesc packages :=
    (sortPackagesDesc_perm packages).mem_iff.2 hmem
  have hst : ([p], p.2) ∈ chunkStates packages maxSize := by
    unfold chunkStates
    exact foldl_placed_big hbig _ [] hmem2
  refine ⟨List.mem_map.2 ⟨([p], p.2), hst, rfl⟩, ?_⟩
  unfold create_chunks
  exact List.mem_map.2 ⟨[p], List.mem_map.2 ⟨([p], p.2), hst, rfl⟩, rfl⟩

/-- Witness for claim C10 at a concrete input. -/
theorem claim_C10_witness :
    [(("a/b" : String), 9)] ∈ create_chunks_sized [(("a/b" : String), 9)] 3 ∧
    ["a/b"] ∈ create_chunks [(("a/b" : String), 9)] 3 :=
  claim_C10_oversized_package_in_own_chunk _ 3 ("a/b", 9) (by decide) (by decide)

end SplitMirror

namespace BackfillDocs

/-- One package version selected by the backfill scan
(`backfill_docs.py` lines 72-77): author, name and version directory
names. -/
structure Pkg where
  author : String
  name : String
  version : String
deriving DecidableEq

/-- A version directory as seen by the scan (`backfill_docs.py` lines
63-71): its name, whether the entry is a directory, and whether the
`elm.json` and `docs.json` files exist inside it. -/
structure VersionDir where
  version : String
  isDir : Bool
  hasElmJson : Bool
  hasDocsJson : Bool
deriving DecidableEq

/-- A package-name directory: its name, directory flag, and entries. -/
structure NameDir where
  name : String
  isDir : Bool
  versions : List VersionDir
deriving DecidableEq

/-- An author directory: its name, directory flag, and entries. -/
structure AuthorDir where
  author : String
  isDir : Bool
  names : List NameDir
deriving DecidableEq

/-- The selection scan of `backfill_docs.py` (lines 55-77): walk
authors, names and versions in order, skipping non-directories, and
collect every version that has `elm.json` but no `docs.json`. -/
def packages_to_update (authors : List AuthorDir) : List Pkg :=
  (authors.filter (fun a => a.isDir)).flatMap fun a =>
    (a.names.filter (fun n => n.isDir)).flatMap fun n =>
      (n.versions.filter (fun v => v.isDir)).filterMap fun v =>
        if v.hasElmJson && !v.hasDocsJson then
          some ⟨a.author, n.name, v.version⟩
        else none

/-- Claim C7: a package version is selected for backfill exactly when it
is a version directory (under a name directory under an author
directory) that contains the manifest `elm.json` and lacks `docs.json`. -/
theorem claim_C7_selects_exactly_missing_docs
    (authors : List AuthorDir) (pkg : Pkg) :
    pkg ∈ packages_to_update authors ↔
      ∃ a ∈ authors, a.isDir = true ∧ ∃ n ∈ a.names, n.isDir = true ∧
        ∃ v ∈ n.versions, v.isDir = true ∧ v.hasElmJson = true ∧
          v.hasDocsJson = false ∧ pkg = ⟨a.author, n.name, v.version⟩ := by
  unfold packages_to_update
  simp only [List.mem_flatMap, List.mem_filterMap, List.mem_filter]
  constructor
  · rintro ⟨a, ⟨ha, hadir⟩, n, ⟨hn, hndir⟩, v, ⟨hv, hvdir⟩, hif⟩
    by_cases hcond : v.hasElmJson && !v.hasDocsJson
    · rw [if_pos hcond] at hif
      obtain rfl := Option.some.inj hif
      rcases (by simpa using hcond :
          v.hasElmJson = true ∧ v.hasDocsJson = false) with ⟨he, hd⟩
      exact ⟨a, ha, hadir, n, hn, hndir, v, hv, hvdir, he, hd, rfl⟩
    · rw [if_neg hcond] at hif
      exact absurd hif (Option.noConfusion)
  · rintro ⟨a, ha, hadir, n, hn, hndir, v, hv, hvdir, he, hd, rfl⟩
    refine ⟨a, ⟨ha, hadir⟩, n, ⟨hn, hndir⟩, v, ⟨hv, hvdir⟩, ?_⟩
    rw [if_pos (by simp [he, hd])]

/-- The outcome accumulator of the fetch loop of `backfill_docs.py`
(lines 85-102): the packages attempted so far and the two counters. -/
structure RunResult where
  attempts : List Pkg
  successCount : Nat
  failCount : Nat
deriving DecidableEq

/-- One iteration of the fetch loop (`backfill_docs.py` lines 88-102):
fetch `docs.json`, then write it; any failure of the fetch or of the
write is caught, counted, and the loop moves on. -/
def processOne (fetch : Pkg → Except String String)
    (write : Pkg → String → Except String Unit)
    (acc : RunResult) (pkg : Pkg) : RunResult :=
  match fetch pkg with
  | Except.error _ => ⟨acc.attempts ++ [pkg], acc.successCount, acc.failCount + 1⟩
  | Except.ok docs =>
    match write pkg docs with
    | Except.error _ => ⟨acc.attempts ++ [pkg], acc.successCount, acc.failCount + 1⟩
    | Except.ok _ => ⟨acc.attempts ++ [pkg], acc.successCount + 1, acc.failCount⟩

/-- The whole fetch loop, starting from zero counters. -/
def runBackfill (toUpdate : List Pkg) (fetch : Pkg → Except String String)
    (write : Pkg → String → Except String Unit) : RunResult :=
  toUpdate.foldl (processOne fetch write) ⟨[], 0, 0⟩

/-- The process exit status of `main` (`backfill_docs.py` lines 47-49,
81-83 and 109): 1 when the packages directory is missing, 0 when there
is nothing to do, otherwise 0 exactly when no package failed. -/
def backfillExit (packagesDirExists : Bool) (toUpdate : List Pkg)
    (fetch : Pkg → Except String String)
    (write : Pkg → String → Except String Unit) : Nat :=
  if packagesDirExists = false then 1
  else if toUpdate.isEmpty then 0
  else if (runBackfill toUpdate fetch write).failCount = 0 then 0 else 1

lemma processOne_attempts (fetch : Pkg → Except String String)
    (write : Pkg → String → Except String Unit) (acc : RunResult) (pkg : Pkg) :
    (processOne fetch write acc pkg).attempts = acc.attempts ++ [pkg] := by
  unfold processOne
  split
  · rfl
  · split <;> rfl

lemma foldl_attempts (fetch : Pkg → Except String String)
    (write : Pkg → String → Except String Unit) :
    ∀ (l : List Pkg) (acc : RunResult),
      (l.foldl (processOne fetch write) acc).attempts = acc.attempts ++ l := by
  intro l
  induction l with
  | nil => intro acc; simp
  | cons p l ih =>
    intro acc
    simp only [List.foldl_cons]
    rw [ih, processOne_attempts]
    simp

/-- Claim C6: the fetch loop attempts every selected package (one
failure never aborts the run), and — the packages directory existing —
the exit status is 0 exactly when no package failed. -/
theorem claim_C6_failure_isolation_and_exit (toUpdate : List Pkg)
    (fetch : Pkg → Except String String)
    (write : Pkg → String → Except String Unit) :
    (runBackfill toUpdate fetch write).attempts = toUpdate ∧
    (backfillExit true toUpdate fetch write = 0 ↔
      (runBackfill toUpdate fetch write).failCount = 0) := by
  constructor
  · unfold runBackfill
    rw [foldl_attempts]
    simp
  · unfold backfillExit
    simp only [Bool.true_eq_false, if_false]
    by_cases hemp : toUpdate.isEmpty
    · rw [if_pos hemp]
      obtain rfl := List.isEmpty_iff.1 hemp
      simp [runBackfill]
    · rw [if_neg hemp]
      by_cases hf : (runBackfill toUpdate fetch write).failCount = 0 <;> simp [hf]

/-- The inter-request delay of `backfill_docs.py` line 52:
`3600.0 / rate_limit` seconds when the rate limit is positive, else 0.
The Python float division of exact integers is modelled as an exact
rational. -/
def delay (rateLimit : Int) : ℚ :=
  if 0 < rateLimit then 3600 / (rateLimit : ℚ) else 0

/-- The sleeps performed by the fetch loop (`backfill_docs.py` lines
104-106) over a run of `n` selected packages: after the i-th fetch
(1-based), sleep `delay` when the delay is positive and this was not the
last fetch. -/
def sleeps (rateLimit : Int) (n : Nat) : List ℚ :=
  (List.range n).filterMap fun i =>
    if 0 < delay rateLimit ∧ i + 1 < n then some (delay rateLimit) else none

lemma delay_of_pos {N : Int} (h : 0 < N) : delay N = 3600 / (N : ℚ) := by
  unfold delay
  rw [if_pos h]

lemma delay_pos {N : Int} (h : 0 < N) : 0 < delay N := by
  rw [delay_of_pos h]
  have hN : (0 : ℚ) < (N : ℚ) := by exact_mod_cast h
  positivity

lemma sleeps_pos_eq {N : Int} (hd : 0 < delay N) (n : Nat) :
    sleeps N n = List.replicate (n - 1) (delay N) := by
  unfold sleeps
  cases n with
  | zero => rfl
  | succ m =>
    rw [List.range_succ, List.filterMap_append]
    have h1 : ∀ l : List Nat, (∀ i ∈ l, i + 1 < m + 1) →
        (l.filterMap fun i =>
          if 0 < delay N ∧ i + 1 < m + 1 then some (delay N) else none)
          = List.replicate l.length (delay N) := by
      intro l
      induction l with
      | nil => intro _; rfl
      | cons a l ih =>
        intro hall
        rw [List.filterMap_cons]
        rw [if_pos ⟨hd, hall a (List.mem_cons_self _ _)⟩]
        rw [ih (fun i hi => hall i (List.mem_cons_of_mem _ hi))]
        simp [List.replicate_succ]
    rw [h1 (List.range m)
      (fun i hi => Nat.succ_lt_succ (List.mem_range.1 hi))]
    rw [List.filterMap_cons]
    simp [List.length_range]

/-- Claim C8: with a positive rate limit N the loop sleeps exactly
3600/N seconds between consecutive fetches and not after the last one
(`n - 1` sleeps for `n` fetches); with a non-positive N it never
sleeps. -/
theorem claim_C8_rate_limit_delays (N : Int) (n : Nat) :
    (0 < N → sleeps N n = List.replicate (n - 1) (3600 / (N : ℚ))) ∧
    (N ≤ 0 → sleeps N n = []) := by
  constructor
  · intro h
    rw [sleeps_pos_eq (delay_pos h) n, delay_of_pos h]
  · intro h
    have hd : delay N = 0 := by
      unfold delay
      rw [if_neg (not_lt.2 h)]
    unfold sleeps
    rw [List.filterMap_eq_nil_iff]
    intro i _
    rw [if_neg]
    rw [hd]
    simp

/-- Witness for claim C8: 3 packages at 60 requests per hour give two
60-second sleeps; a non-positive limit gives none. -/
theorem claim_C8_witness :
    sleeps 60 3 = List.replicate 2 (3600 / (60 : ℚ)) ∧ sleeps (-5) 4 = [] :=
  ⟨(claim_C8_rate_limit_delays 60 3).1 (by norm_num),
   (claim_C8_rate_limit_delays (-5) 4).2 (by norm_num)⟩

/-- The on-disk location of the docs artifact written by the loop
(`backfill_docs.py` lines 67 and 94), as a path of components. -/
def docs_path (pkg : Pkg) : List String :=
  ["packages", pkg.author, pkg.name, pkg.version, "docs.json"]

/-- The filesystem effect of one loop iteration (`backfill_docs.py`
lines 92-102): a successful fetch writes the docs file at its final
path; a failed fetch writes nothing. -/
def writeStep (fetch : Pkg → Except String String)
    (fsAcc : List String → Option String) (pkg : Pkg) :
    List String → Option String :=
  match fetch pkg with
  | Except.ok docs => fun path => if path = docs_path pkg then some docs else fsAcc path
  | Except.error _ => fsAcc

/-- The filesystem after a whole backfill run over the selected
packages. -/
def runFS (toUpdate : List Pkg) (fetch : Pkg → Except String String)
    (fs : List String → Option String) : List String → Option String :=
  toUpdate.foldl (writeStep fetch) fs

lemma writeStep_frame (fetch : Pkg → Except String String)
    (fsAcc : List String → Option String) (pkg : Pkg) (path : List String)
    (h : path ≠ docs_path pkg) : writeStep fetch fsAcc pkg path = fsAcc path := by
  unfold writeStep
  cases fetch pkg with
  | ok docs => exact if_neg h
  | error e => rfl

lemma runFS_frame (fetch : Pkg → Except String String) :
    ∀ (l : List Pkg) (fs : List String → Option String) (path : List String),
      (∀ pkg ∈ l, path ≠ docs_path pkg) → runFS l fetch fs path = fs path := by
  intro l
  induction l with
  | nil => intro fs path _; rfl
  | cons p l ih =>
    intro fs path h
    have h2 : runFS (p :: l) fetch fs = runFS l fetch (writeStep fetch fs p) := rfl
    rw [h2, ih _ path (fun q hq => h q (List.mem_cons_of_mem _ hq))]
    exact writeStep_frame fetch fs p path (h p (List.mem_cons_self _ _))

/-- Claim C9: a backfill run leaves every path other than the docs
files of the selected versions unchanged — in particular the sync log
`registry.json`, the version index `all-packages`, and every manifest,
archive and integrity record of any package directory. -/
theorem claim_C9_only_docs_files_touched (toUpdate : List Pkg)
    (fetch : Pkg → Except String String) (fs : List String → Option String) :
    (∀ path, (∀ pkg ∈ toUpdate, path ≠ docs_path pkg) →
      runFS toUpdate fetch fs path = fs path) ∧
    runFS toUpdate fetch fs ["registry.json"] = fs ["registry.json"] ∧
    runFS toUpdate fetch fs ["all-packages"] = fs ["all-packages"] ∧
    (∀ author name version file : String, file ≠ "docs.json" →
      runFS toUpdate fetch fs ["packages", author, name, version, file]
        = fs ["packages", author, name, version, file]) := by
  refine ⟨runFS_frame fetch toUpdate fs, ?_, ?_, ?_⟩
  · apply runFS_frame
    intro pkg _ h
    simp [docs_path] at h
  · apply runFS_frame
    intro pkg _ h
    simp [docs_path] at h
  · intro author name version file hfile
    apply runFS_frame
    intro pkg _ h
    simp only [docs_path, List.cons.injEq, and_true] at h
    exact hfile h.2.2.2.2

/-- Witness for claim C9: a concrete run does not touch the sync log. -/
theorem claim_C9_witness :
    runFS [⟨"elm", "core", "1.0.5"⟩] (fun _ => Except.ok "[]") (fun _ => none)
      ["registry.json"] = none :=
  (claim_C9_only_docs_files_touched _ _ _).1 ["registry.json"] (by decide)

/-- The sequence of contents observable at the final path while
`backfill_docs.py` lines 94-95 write the docs file:
`open(docs_path, "w")` creates/truncates the final file itself, then the
dump appends the serialized chunks one by one.  Entry 0 is the state
before the write; entry k+1 shows the first k chunks flushed. -/
def directWriteStates (old : Option String) (chunks : List String) :
    List (Option String) :=
  old :: (List.range (chunks.length + 1)).map
    (fun k => some (String.join (List.take k chunks)))

/-- Modelled from the spec: the write-to-temporary-then-rename pattern
of the Registry Store (spec 4.2).  While the temporary file is being
written the final path still holds its old content; the rename then
exposes the complete new content in one step, so only the two complete
states are ever observable at the final path. -/
def atomicWriteStates (old : Option String) (new : String) :
    List (Option String) :=
  [old, some new]

/-- A write is atomic when every observable state of the final path is
either the old content or the complete new content. -/
abbrev IsAtomicWrite (old : Option String) (new : String)
    (states : List (Option String)) : Prop :=
  ∀ s ∈ states, s = old ∨ s = some new

/-- Claim C5, counterexample: the docs.json write of the backfill
utility is not atomic — writing the two chunks of `"[]"` to a
previously absent file exposes the intermediate states of an empty and
a half-written file at the final path. -/
theorem claim_C5_counterexample :
    ¬ IsAtomicWrite none "[]" (directWriteStates none ["[", "]"]) := by
  decide

/-- Claim C5, amended: the temporary-location-then-rename writes of the
Registry Store are atomic, but the docs.json artifact of the backfill
utility is written directly to its final path, which exposes
intermediate states — a reader or a crash can observe a half-written
docs.json as the final file. -/
theorem claim_C5_backfill_write_not_atomic (old : Option String)
    (chunks : List String) (hne : String.join chunks ≠ "")
    (hold : old ≠ some "") :
    (∀ (o : Option String) (new : String),
      IsAtomicWrite o new (atomicWriteStates o new)) ∧
    ¬ IsAtomicWrite old (String.join chunks) (directWriteStates old chunks) := by
  constructor
  · intro o new s hs
    rcases List.mem_cons.1 hs with rfl | hs
    · exact Or.inl rfl
    · rcases List.mem_singleton.1 hs with rfl
      exact Or.inr rfl
  · intro hA
    have h0 : some "" ∈ directWriteStates old chunks := by
      unfold directWriteStates
      refine List.mem_cons_of_mem _ (List.mem_map.2 ⟨0, ?_, rfl⟩)
      exact List.mem_range.2 (Nat.succ_pos _)
    rcases hA _ h0 with h | h
    · exact hold h.symm
    · exact hne (Option.some.inj h).symm

/-- Witness for claim C5 at a concrete input. -/
theorem claim_C5_witness :
    String.join ["a", "b"] ≠ "" ∧ (none : Option String) ≠ some "" ∧
    ¬ IsAtomicWrite none (String.join ["a", "b"])
      (directWriteStates none ["a", "b"]) :=
  ⟨by decide, by decide,
   (claim_C5_backfill_write_not_atomic none ["a", "b"] (by decide) (by decide)).2⟩

end BackfillDocs

namespace MirrorServer

/-- Modelled from the spec: the server module (`elm_mirror.py`) is not
among the available sources, so the read path is modelled from spec
sections 3 and 4.5.  A PackageIdentity: (author, name, version). -/
structure Identity where
  author : String
  name : String
  version : String
deriving DecidableEq

/-- Modelled from the spec: the status of a PackageRecord. -/
inductive SyncStatus
  | pending
  | success
  | failed
deriving DecidableEq

/-- Modelled from the spec: a PackageRecord of the append-only sync
log — identity, status, and error detail (present iff failed). -/
structure PackageRecord where
  identity : Identity
  status : SyncStatus
  error : Option String
deriving DecidableEq

/-- Modelled from the spec: the state the Mirror Server reads — the
sync log, the stored digest per identity (from the integrity record),
the stored raw artifact bytes per identity and file name, and the
configured externally-reachable base URL. -/
structure MirrorState where
  log : List PackageRecord
  digest : Identity → Option String
  artifacts : Identity → String → Option String
  baseUrl : String

/-- Whether some log entry records a successful sync of the identity. -/
def hasSuccessRecord (log : List PackageRecord) (pid : Identity) : Bool :=
  log.any fun r => decide (r.identity = pid ∧ r.status = SyncStatus.success)

/-- The canonical archive path of an identity. -/
def canonicalArchivePath (pid : Identity) : String :=
  "/packages/" ++ pid.author ++ "/" ++ pid.name ++ "/" ++ pid.version
    ++ "/package.zip"

/-- The per-package files served under `/packages/<a>/<n>/<v>/`. -/
inductive PkgFile
  | elmJson
  | docsJson
  | packageZip
  | endpointJson
deriving DecidableEq

/-- The body of an HTTP response. -/
inductive Body
  | endpoint (url : String) (hash : String)
  | raw (contents : String)
deriving DecidableEq

/-- An HTTP response: status code and optional body. -/
structure Response where
  status : Nat
  body : Option Body
deriving DecidableEq

/-- The name of the stored artifact a package file route reads. -/
def artifactName : PkgFile → String
  | PkgFile.elmJson => "elm.json"
  | PkgFile.docsJson => "docs.json"
  | PkgFile.packageZip => "package.zip"
  | PkgFile.endpointJson => "endpoint.json"

/-- Modelled from the spec (section 4.5): serving a request that names
an identity.  Any identity with no success PackageRecord gets 503 —
not 404.  For a successfully synced identity, `endpoint.json` is
generated as `base-url + canonical archive path` with the stored
digest, and the raw artifacts are served as stored, 404 when a
sub-resource (such as optional docs) is genuinely absent. -/
def serve (st : MirrorState) (pid : Identity) (file : PkgFile) : Response :=
  if hasSuccessRecord st.log pid then
    match file with
    | PkgFile.endpointJson =>
      match st.digest pid with
      | some h => ⟨200, some (Body.endpoint (st.baseUrl ++ canonicalArchivePath pid) h)⟩
      | none => ⟨404, none⟩
    | f =>
      match st.artifacts pid (artifactName f) with
      | some b => ⟨200, some (Body.raw b)⟩
      | none => ⟨404, none⟩
  else ⟨503, none⟩

/-- Claim C2: any request naming an identity with no success
PackageRecord gets HTTP 503 (never 404), and `endpoint.json` for a
successfully synced identity gets 200 with `url` the configured base
URL plus the canonical archive path and `hash` the stored digest. -/
theorem claim_C2_availability_and_endpoint (st : MirrorState) (pid : Identity) :
    (hasSuccessRecord st.log pid = false →
      ∀ file, serve st pid file = ⟨503, none⟩ ∧ (serve st pid file).status ≠ 404) ∧
    (∀ h, hasSuccessRecord st.log pid = true → st.digest pid = some h →
      serve st pid PkgFile.endpointJson =
        ⟨200, some (Body.endpoint (st.baseUrl ++ canonicalArchivePath pid) h)⟩) := by
  constructor
  · intro hno file
    have hserve : serve st pid file = ⟨503, none⟩ := by
      unfold serve
      rw [hno]
      rfl
    exact ⟨hserve, by rw [hserve]; decide⟩
  · intro h hyes hdig
    unfold serve
    rw [hyes, hdig]
    rfl

/-- A concrete mirror state for the claim C2 witness: one successful
log entry for elm/core 1.0.5 with stored digest "beefcafe". -/
def witnessState : MirrorState :=
  ⟨[⟨⟨"elm", "core", "1.0.5"⟩, SyncStatus.success, none⟩],
   fun pid => if pid = ⟨"elm", "core", "1.0.5"⟩ then some "beefcafe" else none,
   fun _ _ => none,
   "http://localhost:18765"⟩

/-- Witness for claim C2: the never-synced elm/html 1.0.0 gets 503 on
`endpoint.json`; the synced elm/core 1.0.5 gets 200 with the rewritten
absolute URL and the stored digest. -/
theorem claim_C2_witness :
    serve witnessState ⟨"elm", "html", "1.0.0"⟩ PkgFile.endpointJson
      = ⟨503, none⟩ ∧
    serve witnessState ⟨"elm", "core", "1.0.5"⟩ PkgFile.endpointJson
      = ⟨200, some (Body.endpoint
          ("http://localhost:18765" ++ canonicalArchivePath ⟨"elm", "core", "1.0.5"⟩)
          "beefcafe")⟩ :=
  ⟨((claim_C2_availability_and_endpoint witnessState ⟨"elm", "html", "1.0.0"⟩).1
      (by decide) PkgFile.endpointJson).1,
   (claim_C2_availability_and_endpoint witnessState ⟨"elm", "core", "1.0.5"⟩).2
      "beefcafe" (by decide) (by decide)⟩

end MirrorServer
